import Mathlib

/-!
Verification of the chat-service real-time core (presence, delivery, fan-out).

Each definition below is a shallow embedding of a function of the repository:
the rate limiter and typing timeout from `src/utils/chatHelpers.js`, the
socket handlers from `src/app.js` (`join_chat`, `send_message`,
`typing_start`/`typing_stop`, `mark_messages_read`, `disconnect`, the
connection handler), the REST `markMessagesRead` endpoint from
`src/controllers/chatController.js`, and the redis helper operations of the
client wrapper (`setUserOnline`, `setUserOffline`, `setUserTyping`,
`removeUserTyping`, `setUserActiveInChat`).  Timestamps are naturals
(milliseconds), actor/chat/message identifiers are naturals, and the redis
store is modelled with association lists so that every definition is
executable.
-/

namespace ChatService

/-! ### Outbound events

`Target` names where an emission goes: the requesting socket itself, a
socket.io room (`chat:<id>`, the plain legacy room `<id>`, the `/groupchat`
namespace room, or a personal `user:<id>` room), a broadcast to every other
connected socket, or the redis pub/sub channels used by
`publishChatEvent` / `publishUserEvent`. -/

inductive Target where
  | self
  | room (chatId : Nat)
  | plainRoom (chatId : Nat)
  | groupRoom (chatId : Nat)
  | userRoom (userId : Nat)
  | broadcast
  | pubsubChat
  | pubsubUser
  deriving DecidableEq, Repr

/-- One emitted event: its destination, the event name, and the human-readable
message carried by `error` payloads (empty for other events). -/
structure Emit where
  target : Target
  name : String
  msg : String
  deriving DecidableEq, Repr

/-! ### Rate limiter — `checkRateLimit` in `src/utils/chatHelpers.js`

The redis value under `rate_limit:<userId>:<action>` is a JSON list of
timestamps with a TTL; `redisClient.get` returns `null` once the TTL has
passed, which the source turns into `[]` via `|| []`. -/

structure RateLimitResult where
  allowed : Bool
  remaining : Nat
  resetTime : Nat
  deriving DecidableEq, Repr

/-- The stored entry for one `(actor, action)` key: the timestamp list together
with the absolute expiry instant recorded by `setEx(key, ttl, value)`. -/
structure RLEntry where
  timestamps : List Nat
  expiresAt : Nat
  deriving DecidableEq, Repr

/-- Embeds `await redisClient.get(key) || []` : the stored list, or `[]` when the key
is absent or its TTL has passed. -/
def rlGet (entry : Option RLEntry) (now : Nat) : List Nat :=
  match entry with
  | some e => if now < e.expiresAt then e.timestamps else []
  | none => []

/-- The pruning step of `checkRateLimit`:
`actions.filter(timestamp => timestamp > windowStart)` with
`windowStart = now - windowSeconds * 1000` (an integer, as in JS, since it
may be negative for small `now`). -/
def recentOf (entry : Option RLEntry) (now windowSeconds : Nat) : List Nat :=
  (rlGet entry now).filter
    (fun (t : Nat) => decide ((t : Int) > (now : Int) - (windowSeconds : Int) * 1000))

/-- Embeds `ChatHelpers.checkRateLimit` for a single `(actor, action)` key: prune to
the trailing window, deny when `recentActions.length >= maxActions` without
touching the store, otherwise record `now` and re-set the key with a fresh
TTL of `windowSeconds`. -/
def checkRateLimit (entry : Option RLEntry) (now maxActions windowSeconds : Nat) :
    RateLimitResult × Option RLEntry :=
  let recentActions := recentOf entry now windowSeconds
  if maxActions ≤ recentActions.length then
    ({ allowed := false, remaining := 0,
       resetTime := recentActions.headD 0 + windowSeconds * 1000 }, entry)
  else
    let updated := recentActions ++ [now]
    ({ allowed := true, remaining := maxActions - updated.length,
       resetTime := now + windowSeconds * 1000 },
     some ⟨updated, now + windowSeconds * 1000⟩)

/-- Run a sequence of `checkRateLimit` calls at the given instants, threading
the stored entry, and collect the admission decision of each call. -/
def rlRun (entry : Option RLEntry) (times : List Nat) (maxActions windowSeconds : Nat) :
    List Bool :=
  match times with
  | [] => []
  | t :: rest =>
    let r := checkRateLimit entry t maxActions windowSeconds
    r.1.allowed :: rlRun r.2 rest maxActions windowSeconds

/-! ### Message store and read receipts — `src/models/Message.js`,
`handleMarkRead` in `src/app.js`

The Mongoose `Message` document, restricted to the fields the mark-read
handler touches.  `readBy` is a list of `{ user, readAt }` sub-documents. -/

structure ReadReceipt where
  user : Nat
  readAt : Nat
  deriving DecidableEq, Repr

structure Message where
  id : Nat
  chat : Nat
  sender : Nat
  readBy : List ReadReceipt
  deliveryStatus : String
  isDeleted : Bool
  deriving DecidableEq, Repr

/-- Embeds `message.readBy.some(r => r.user.toString() === userId.toString())`. -/
def hasRead (m : Message) (u : Nat) : Bool :=
  m.readBy.any (fun r => r.user == u)

/-- Embeds `message.readBy.push({ user, readAt })` and the update of `deliveryStatus` to `read`. -/
def applyRead (m : Message) (u now : Nat) : Message :=
  { m with readBy := m.readBy ++ [⟨u, now⟩], deliveryStatus := "read" }

/-- Embeds `message.save()`: replace the stored document with the same id. -/
def saveMsg : List Message → Message → List Message
  | [], _ => []
  | m :: rest, m' => if m.id == m'.id then m' :: rest else m :: saveMsg rest m'

/-- Embeds `Message.findById(messageId)`. -/
def findMsg (store : List Message) (mid : Nat) : Option Message :=
  store.find? (fun m => m.id == mid)

/-- One iteration of the `for (const messageId of messageIds)` loop of
`handleMarkRead`: look the message up, and only if the actor has not read it
yet, append a receipt, set the status and save, counting the update. -/
def markOne (store : List Message) (mid u now : Nat) : List Message × Nat :=
  match findMsg store mid with
  | some m => if hasRead m u then (store, 0) else (saveMsg store (applyRead m u now), 1)
  | none => (store, 0)

/-- The whole `for (const messageId of messageIds)` loop. -/
def markMessageIds (store : List Message) (ids : List Nat) (u now : Nat) :
    List Message × Nat :=
  match ids with
  | [] => (store, 0)
  | mid :: rest =>
    let r := markOne store mid u now
    let r' := markMessageIds r.1 rest u now
    (r'.1, r.2 + r'.2)

/-- The `Message.find` filter of the empty-`messageIds` branch:
`chat = chatId`, `sender != userId`, no `readBy` entry for `userId`, and `isDeleted != true`. -/
def isUnreadCandidate (m : Message) (chatId u : Nat) : Bool :=
  m.chat == chatId && m.sender != u && !hasRead m u && !m.isDeleted

/-- The empty-`messageIds` branch of `handleMarkRead`: query the unread
candidates, then push a receipt and save each one, counting as it goes. -/
def markAllUnread (store : List Message) (chatId u now : Nat) : List Message × Nat :=
  let unreadMessages := store.filter (fun m => isUnreadCandidate m chatId u)
  unreadMessages.foldl
    (fun (acc : List Message × Nat) m => (saveMsg acc.1 (applyRead m u now), acc.2 + 1))
    (store, 0)

/-- Embeds `handleMarkRead` of `src/app.js`: dispatch on `messageIds.length > 0` and
return the updated store together with `updatedCount`. -/
def handleMarkRead (store : List Message) (chatId : Nat) (messageIds : List Nat)
    (u now : Nat) : List Message × Nat :=
  if 0 < messageIds.length then markMessageIds store messageIds u now
  else markAllUnread store chatId u now

/-- The announcement tail of the socket `handleMarkRead`: publish and emit
`messages_read` / `messageRead` only inside the `if (updatedCount > 0)`
block. -/
def handleMarkReadSocket (store : List Message) (chatId : Nat) (messageIds : List Nat)
    (u now : Nat) : List Message × Nat × List Emit :=
  let r := handleMarkRead store chatId messageIds u now
  if 0 < r.2 then
    (r.1, r.2,
     [⟨.pubsubChat, "messages_read", ""⟩, ⟨.room chatId, "messages_read", ""⟩,
      ⟨.plainRoom chatId, "messageRead", ""⟩, ⟨.groupRoom chatId, "messageRead", ""⟩])
  else (r.1, r.2, [])

/-! ### REST mark-read — `markMessagesRead` in
`src/controllers/chatController.js`

This variant stores `read_by` as a plain list of user ids
(`message.read_by.includes(userId)`), and its announcement tail runs
unconditionally after the branches: `publishChatEvent(messages_read, ...)`
always, and `io.to(...).emit(messages_read, ...)` whenever the io handle
is present. -/

structure RMessage where
  name : Nat
  chat : Nat
  sender : Nat
  read_by : List Nat
  is_deleted : Bool
  deriving DecidableEq, Repr

def restFindMsg (store : List RMessage) (mid : Nat) : Option RMessage :=
  store.find? (fun m => m.name == mid)

def restSave : List RMessage → RMessage → List RMessage
  | [], _ => []
  | m :: rest, m' => if m.name == m'.name then m' :: rest else m :: restSave rest m'

def restMarkOne (store : List RMessage) (mid u : Nat) : List RMessage × Nat :=
  match restFindMsg store mid with
  | some m =>
    if m.read_by.contains u then (store, 0)
    else (restSave store { m with read_by := m.read_by ++ [u] }, 1)
  | none => (store, 0)

def restMarkIds (store : List RMessage) (ids : List Nat) (u : Nat) :
    List RMessage × Nat :=
  match ids with
  | [] => (store, 0)
  | mid :: rest =>
    let r := restMarkOne store mid u
    let r' := restMarkIds r.1 rest u
    (r'.1, r.2 + r'.2)

/-- The `database.getAll(messages, ...)` filter of the REST empty-ids
branch: `{ chat, sender: { $ne: userId }, read_by: { $ne: userId },
is_deleted: { $ne: 1 } }`. -/
def restCandidate (m : RMessage) (chatId u : Nat) : Bool :=
  m.chat == chatId && m.sender != u && !(m.read_by.contains u) && !m.is_deleted

def restMarkAll (store : List RMessage) (chatId u : Nat) : List RMessage × Nat :=
  let unreadMessages := store.filter (fun m => restCandidate m chatId u)
  unreadMessages.foldl
    (fun (acc : List RMessage × Nat) m =>
      (restSave acc.1 { m with read_by := m.read_by ++ [u] }, acc.2 + 1))
    (store, 0)

/-- Embeds `ChatController.markMessagesRead`: branch on `message_ids.length > 0`,
then publish the read event and (when io is available) emit the read
receipt — both regardless of `updatedCount`. -/
def restMarkMessagesRead (store : List RMessage) (chatId : Nat) (messageIds : List Nat)
    (u : Nat) (ioPresent : Bool) : List RMessage × Nat × List Emit :=
  let r := if 0 < messageIds.length then restMarkIds store messageIds u
           else restMarkAll store chatId u
  (r.1, r.2,
   ⟨.pubsubChat, "messages_read", ""⟩ ::
     (if ioPresent then [⟨.room chatId, "messages_read", ""⟩] else []))

/-! ### Redis-backed gateway state — presence, typing markers, active chat

`presence` models the `user:online:<userId>` keys, `typing` the
`typing:<chatId>:<userId>` keys (present-or-absent markers), and
`activeChat` the `user:active_chat:<userId>` keys.  TTLs are not tracked
here; the claims about this state concern which handler writes or deletes
which key. -/

structure PresenceRecord where
  status : String
  socketId : Option Nat
  lastSeen : Nat
  deriving DecidableEq, Repr

structure RedisState where
  presence : List (Nat × PresenceRecord)
  typing : List (Nat × Nat)
  activeChat : List (Nat × Nat)
  deriving DecidableEq, Repr

/-- Overwrite-or-insert for an association list, as a redis `set`. -/
def setKey {α : Type} (l : List (Nat × α)) (k : Nat) (v : α) : List (Nat × α) :=
  match l with
  | [] => [(k, v)]
  | (k', v') :: rest => if k' == k then (k, v) :: rest else (k', v') :: setKey rest k v

/-- Redis `get` for an association list. -/
def getKey {α : Type} (l : List (Nat × α)) (k : Nat) : Option α :=
  (l.find? (fun p => p.1 == k)).map (fun p => p.2)

/-- Embeds `redisClient.setUserOnline(userId, socketId)`: store an online record. -/
def setUserOnline (st : RedisState) (userId socketId now : Nat) : RedisState :=
  { st with presence := setKey st.presence userId ⟨"online", some socketId, now⟩ }

/-- Embeds `redisClient.setUserOffline(userId)`: store an offline record. -/
def setUserOffline (st : RedisState) (userId now : Nat) : RedisState :=
  { st with presence := setKey st.presence userId ⟨"offline", none, now⟩ }

/-- Embeds `redisClient.setUserTyping(userId, chatId)`: create the
`typing:<chatId>:<userId>` key (a re-set of an existing key keeps it a
single key). -/
def setTypingKey (typing : List (Nat × Nat)) (chatId userId : Nat) : List (Nat × Nat) :=
  if typing.contains (chatId, userId) then typing else typing ++ [(chatId, userId)]

/-- Embeds `redisClient.removeUserTyping(userId, chatId)`: delete the key. -/
def removeTypingKey (typing : List (Nat × Nat)) (chatId userId : Nat) : List (Nat × Nat) :=
  typing.filter (fun p => !(p == (chatId, userId)))

/-- Embeds `redisClient.setUserActiveInChat(userId, chatId)`. -/
def setUserActiveInChat (st : RedisState) (userId chatId : Nat) : RedisState :=
  { st with activeChat := setKey st.activeChat userId chatId }

/-- The typing keys matched by the disconnect pattern `typing:*:<userId>`. -/
def typingKeysOf (typing : List (Nat × Nat)) (userId : Nat) : List (Nat × Nat) :=
  typing.filter (fun p => p.2 == userId)

/-! ### Connection gateway — `src/app.js` socket handlers -/

/-- The socket.io room names used by the gateway. -/
def chatRoom (chatId : Nat) : String := "chat:" ++ toString chatId

def plainRoomName (chatId : Nat) : String := toString chatId

def userRoomName (userId : Nat) : String := "user:" ++ toString userId

/-- The chat document as the join/send handlers read it
(`Chat.findById(chatId)` with populated participants). -/
structure Chat where
  id : Nat
  participants : List Nat
  isGroup : Bool
  deriving DecidableEq, Repr

def findChat (chats : List Chat) (chatId : Nat) : Option Chat :=
  chats.find? (fun c => c.id == chatId)

/-- The authenticated-connection prologue of `io.on(connection, ...)`:
join the personal room, store the online record, publish `user_online` to
other services and broadcast `user_online` / `userOnline` to every other
socket — all unconditionally, with no look at the previous presence state.
A connection with no bound user does none of this. -/
def handleConnection (st : RedisState) (userId : Option Nat) (socketId now : Nat)
    (rooms : List String) : RedisState × List String × List Emit :=
  match userId with
  | some u =>
    (setUserOnline st u socketId now,
     rooms ++ [userRoomName u],
     [⟨.pubsubUser, "user_online", ""⟩, ⟨.broadcast, "user_online", ""⟩,
      ⟨.broadcast, "userOnline", ""⟩])
  | none => (st, rooms, [])

/-- Embeds `handleJoinChat` of `src/app.js`: require a chat id, look the chat up,
and only when the requesting user is among its participants join the
`chat:<id>` and legacy rooms, mark the user active in the chat, and confirm
with `chat_joined`; otherwise emit an explicit `error` and change nothing. -/
def handleJoinChat (chats : List Chat) (st : RedisState) (rooms : List String)
    (userId : Nat) (chatId? : Option Nat) : RedisState × List String × List Emit :=
  match chatId? with
  | none => (st, rooms, [⟨.self, "error", "Chat ID is required"⟩])
  | some chatId =>
    match findChat chats chatId with
    | some chat =>
      if chat.participants.contains userId then
        (setUserActiveInChat st userId chatId,
         rooms ++ [chatRoom chatId, plainRoomName chatId],
         [⟨.self, "chat_joined", ""⟩])
      else (st, rooms, [⟨.self, "error", "No access to this chat"⟩])
    | none => (st, rooms, [⟨.self, "error", "Chat not found"⟩])

/-- The `new_message` fan-out of the send handler:
`io.to(chat:<id>).emit(new_message, ...)`.  A socket receives a
room emission exactly when it has joined that room. -/
def reachesSocket (e : Emit) (rooms : List String) : Bool :=
  match e.target with
  | .room c => rooms.contains (chatRoom c)
  | .plainRoom c => rooms.contains (plainRoomName c)
  | .groupRoom c => rooms.contains (plainRoomName c)
  | .userRoom u => rooms.contains (userRoomName u)
  | _ => false

def newMessageEmit (chatId : Nat) : Emit := ⟨.room chatId, "new_message", ""⟩

/-- The `disconnect` handler of `src/app.js`: for a bound user, store an
offline presence record, publish `user_offline`, delete every
`typing:*:<userId>` key announcing `user_stopped_typing` to the affected
chat room for each, and broadcast `user_offline` / `userOffline`.  The
`user:active_chat:<userId>` key is not touched by this handler. -/
def handleDisconnect (st : RedisState) (userId : Option Nat) (now : Nat) :
    RedisState × List Emit :=
  match userId with
  | none => (st, [])
  | some u =>
    let keys := typingKeysOf st.typing u
    ({ presence := setKey st.presence u ⟨"offline", none, now⟩,
       typing := st.typing.filter (fun p => !(p.2 == u)),
       activeChat := st.activeChat },
     ⟨.pubsubUser, "user_offline", ""⟩ ::
       keys.map (fun p => ⟨.room p.1, "user_stopped_typing", ""⟩) ++
       [⟨.broadcast, "user_offline", ""⟩, ⟨.broadcast, "userOffline", ""⟩])

/-- Embeds `getTypingTimeout` of `src/utils/chatHelpers.js`. -/
def getTypingTimeout : Nat := 3000

/-- A pending `setTimeout` scheduled by `handleTypingStart`. -/
structure TimerTask where
  fireAt : Nat
  chatId : Nat
  userId : Nat
  deriving DecidableEq, Repr

/-- Embeds `handleTypingStart` of `src/app.js`: require a chat id, set the typing
key, emit `user_typing` (and the legacy variants) to the room —
unconditionally, whether or not the marker already existed — and schedule a
new auto-stop timeout `getTypingTimeout()` from now, without cancelling any
previously scheduled one. -/
def handleTypingStart (st : RedisState) (timers : List TimerTask) (userId : Nat)
    (chatId? : Option Nat) (now : Nat) : RedisState × List TimerTask × List Emit :=
  match chatId? with
  | none => (st, timers, [])
  | some chatId =>
    ({ st with typing := setTypingKey st.typing chatId userId },
     timers ++ [⟨now + getTypingTimeout, chatId, userId⟩],
     [⟨.room chatId, "user_typing", ""⟩, ⟨.plainRoom chatId, "userTyping", ""⟩,
      ⟨.groupRoom chatId, "userTypingInGroup", ""⟩])

/-- The `typing_stop` handler: delete the typing key and announce
`user_stopped_typing` (and legacy variants). -/
def handleTypingStop (st : RedisState) (userId : Nat) (chatId? : Option Nat) :
    RedisState × List Emit :=
  match chatId? with
  | none => (st, [])
  | some chatId =>
    ({ st with typing := removeTypingKey st.typing chatId userId },
     [⟨.room chatId, "user_stopped_typing", ""⟩, ⟨.plainRoom chatId, "userStopTyping", ""⟩,
      ⟨.groupRoom chatId, "userStopTypingInGroup", ""⟩])

/-! ### Typing-marker lifetime — a single `(room, actor)` pair over time

Discrete-event view of one typing marker: a `tstart` is a `typing_start`
(it stores the marker and schedules a `setTimeout` at `+ getTypingTimeout`),
a `tstop` is an explicit `typing_stop`, a `tsend` is the
`removeUserTyping` + `user_stopped_typing` tail of a successful
`send_message` by the same actor in the room, and a `tfire` is one of the
scheduled timeouts running (its callback deletes the key and announces the
stop unconditionally). -/

inductive TKind where
  | tstart
  | tstop
  | tsend
  | tfire
  deriving DecidableEq, Repr

structure TEvent where
  time : Nat
  kind : TKind
  deriving DecidableEq, Repr

/-- Here `marker` is the creation instant of the currently stored typing key (if
any), `timers` the multiset of pending timeout instants, `announces` /
`stops` the number of `user_typing` / `user_stopped_typing` announcements
made so far. -/
structure TState where
  marker : Option Nat
  timers : List Nat
  announces : Nat
  stops : Nat
  deriving DecidableEq, Repr

def tstep (s : TState) (e : TEvent) : TState :=
  match e.kind with
  | .tstart =>
    { marker := some e.time, timers := s.timers ++ [e.time + getTypingTimeout],
      announces := s.announces + 1, stops := s.stops }
  | .tstop => { s with marker := none, stops := s.stops + 1 }
  | .tsend => { s with marker := none, stops := s.stops + 1 }
  | .tfire =>
    { marker := none, timers := s.timers.erase e.time,
      announces := s.announces, stops := s.stops + 1 }

def tinit : TState := ⟨none, [], 0, 0⟩

def trunFrom (s : TState) (es : List TEvent) : TState := es.foldl tstep s

def trun (es : List TEvent) : TState := trunFrom tinit es

/-- Number of `tstart` events in `p` whose timeout is scheduled at `x`. -/
def countStarts (x : Nat) (p : List TEvent) : Nat :=
  (p.filter (fun e => e.kind == TKind.tstart && e.time + getTypingTimeout == x)).length

/-- Number of timeout firings at instant `x` in `p`. -/
def countFires (x : Nat) (p : List TEvent) : Nat :=
  (p.filter (fun e => e.kind == TKind.tfire && e.time == x)).length

def relevantTimes (es : List TEvent) : List Nat :=
  es.map (fun e => e.time + getTypingTimeout)

/-- Every scheduled timeout eventually fires within the trace: the system
runs long enough that no `setTimeout` is still pending at the end. -/
def timerComplete (es : List TEvent) : Prop :=
  ∀ x ∈ relevantTimes es, countFires x es = countStarts x es

/-- A timeout never fires before the `typing_start` that scheduled it: in
every prefix the firings at `x` are covered by earlier schedulings at `x`. -/
def timerCausal (es : List TEvent) : Prop :=
  ∀ n ∈ List.range (es.length + 1), ∀ x ∈ relevantTimes es,
    countFires x (es.take n) ≤ countStarts x (es.take n)

/-! ### Proof-side helper definitions for the mark-read analysis -/

/-- Whatever `findById` returns for this message id has already been read by
the actor (vacuously true when the id resolves to nothing). -/
def allReadAt (s : List Message) (mid u : Nat) : Prop :=
  ∀ m, findMsg s mid = some m → hasRead m u = true

/-- The store component of the mark-all-unread loop: save an updated copy of
each listed message in turn. -/
def foldSave (s : List Message) (l : List Message) (u now : Nat) : List Message :=
  l.foldl (fun acc m => saveMsg acc (applyRead m u now)) s

/-! ## Theorems -/

/-! ### Helper lemmas on the association-list store -/

theorem getKey_setKey {α : Type} (l : List (Nat × α)) (k : Nat) (v : α) :
    getKey (setKey l k v) k = some v := by
  induction l with
  | nil => simp [setKey, getKey]
  | cons p rest ih =>
    obtain ⟨k', v'⟩ := p
    by_cases h : k' = k
    · subst h
      simp [setKey, getKey]
    · simp only [setKey, getKey] at ih ⊢
      simp [h, ih]

theorem setKey_setKey {α : Type} (l : List (Nat × α)) (k : Nat) (v : α) :
    setKey (setKey l k v) k v = setKey l k v := by
  induction l with
  | nil => simp [setKey]
  | cons p rest ih =>
    obtain ⟨k', v'⟩ := p
    by_cases h : k' = k
    · subst h
      simp [setKey]
    · simp [setKey, h, ih]

theorem filter_user_of_filter_ne (l : List (Nat × Nat)) (u : Nat) :
    (l.filter (fun p => !(p.2 == u))).filter (fun p => p.2 == u) = [] := by
  induction l with
  | nil => rfl
  | cons p rest ih =>
    by_cases h : p.2 = u <;> simp [h, ih]

theorem filter_ne_user_idem (l : List (Nat × Nat)) (u : Nat) :
    ((l.filter (fun p => !(p.2 == u))).filter (fun p => !(p.2 == u))) =
      l.filter (fun p => !(p.2 == u)) := by
  induction l with
  | nil => rfl
  | cons p rest ih =>
    by_cases h : p.2 = u <;> simp [h, ih]

/-! ### C2, C10 — rate limiter -/

/-- C2: `checkRateLimit` prunes the stored list to the trailing window and
admits exactly when the in-window count is strictly below the limit; with
`limit = 5`, `window = 60 s`, five admitted calls inside the window followed
by a sixth inside the window are decided
`true, true, true, true, true, false`, and a further call after the window
has elapsed is decided `true`. -/
theorem checkRateLimit_sliding_window :
    (∀ (entry : Option RLEntry) (now maxActions windowSeconds : Nat),
      (checkRateLimit entry now maxActions windowSeconds).1.allowed = true ↔
        (recentOf entry now windowSeconds).length < maxActions) ∧
    rlRun none [0, 1000, 2000, 3000, 4000, 5000, 70000] 5 60 =
      [true, true, true, true, true, false, true] := by
  constructor
  · intro entry now maxActions windowSeconds
    simp only [checkRateLimit]
    split
    · rename_i h
      simp only [Bool.false_eq_true, false_iff, not_lt]
      exact h
    · rename_i h
      simp only [true_iff]
      omega
  · decide

/-- C10: when `checkRateLimit` denies a call, it returns before the `set`
call, so the stored entry — timestamp list and TTL deadline alike — is
exactly what it was before the call. -/
theorem checkRateLimit_denied_leaves_store
    (entry : Option RLEntry) (now maxActions windowSeconds : Nat)
    (h : (checkRateLimit entry now maxActions windowSeconds).1.allowed = false) :
    (checkRateLimit entry now maxActions windowSeconds).2 = entry := by
  simp only [checkRateLimit] at h ⊢
  split at h
  · rename_i hle
    simp only [if_pos hle]
  · simp at h

/-- Witness for C10: a concrete denied call (limit 1, one recent action)
leaves the stored entry untouched. -/
theorem checkRateLimit_denied_leaves_store_witness :
    (checkRateLimit (some ⟨[500], 60500⟩) 1000 1 60).1.allowed = false ∧
      (checkRateLimit (some ⟨[500], 60500⟩) 1000 1 60).2 = some ⟨[500], 60500⟩ :=
  ⟨by decide, checkRateLimit_denied_leaves_store (some ⟨[500], 60500⟩) 1000 1 60 (by decide)⟩

/-! ### C1 — join access control -/

/-- C1: a `join_chat` request by an actor who is not among the participants of
the target chat emits the explicit `No access to this chat` error, leaves the
redis state and the room subscriptions of the socket unchanged, and in
particular the socket (not previously subscribed) is not reached by any
subsequent `new_message` fan-out for that chat. -/
theorem joinChat_nonmember_denied (chats : List Chat) (st : RedisState)
    (rooms : List String) (userId chatId : Nat) (chat : Chat)
    (hchat : findChat chats chatId = some chat)
    (hmem : chat.participants.contains userId = false)
    (hroom : rooms.contains (chatRoom chatId) = false) :
    (handleJoinChat chats st rooms userId (some chatId)).1 = st ∧
    (handleJoinChat chats st rooms userId (some chatId)).2.1 = rooms ∧
    (handleJoinChat chats st rooms userId (some chatId)).2.2 =
      [⟨.self, "error", "No access to this chat"⟩] ∧
    reachesSocket (newMessageEmit chatId)
      (handleJoinChat chats st rooms userId (some chatId)).2.1 = false := by
  simp only [handleJoinChat, hchat, hmem, Bool.false_eq_true, if_false]
  exact ⟨trivial, trivial, trivial, hroom⟩

/-- Witness for C1: user 7 is not a participant of chat 9, gets the error,
and stays outside the `chat:9` broadcast room. -/
theorem joinChat_nonmember_denied_witness :
    (handleJoinChat [⟨9, [1, 2], false⟩] ⟨[], [], []⟩ [] 7 (some 9)).1 = ⟨[], [], []⟩ ∧
    (handleJoinChat [⟨9, [1, 2], false⟩] ⟨[], [], []⟩ [] 7 (some 9)).2.1 = [] ∧
    (handleJoinChat [⟨9, [1, 2], false⟩] ⟨[], [], []⟩ [] 7 (some 9)).2.2 =
      [⟨.self, "error", "No access to this chat"⟩] ∧
    reachesSocket (newMessageEmit 9)
      (handleJoinChat [⟨9, [1, 2], false⟩] ⟨[], [], []⟩ [] 7 (some 9)).2.1 = false :=
  joinChat_nonmember_denied [⟨9, [1, 2], false⟩] ⟨[], [], []⟩ [] 7 9 ⟨9, [1, 2], false⟩
    (by decide) (by decide) (by decide)

/-! ### C4 — disconnect cleanup -/

/-- C4 counterexample: a disconnect of user 7, who is active in chat 9,
leaves the `user:active_chat:7` record exactly as it was — the
active-room-in-chat state is not part of the disconnect cleanup. -/
theorem disconnect_keeps_activeChat_counterexample :
    (handleDisconnect ⟨[(7, ⟨"online", some 1, 50⟩)], [(9, 7)], [(7, 9)]⟩
        (some 7) 100).1.activeChat = [(7, 9)] ∧
    getKey (handleDisconnect ⟨[(7, ⟨"online", some 1, 50⟩)], [(9, 7)], [(7, 9)]⟩
        (some 7) 100).1.activeChat 7 = some 9 := by
  constructor
  · rfl
  · rfl

/-- C4 (amended): a disconnect stores an offline presence record, deletes
every typing marker of the actor announcing `user_stopped_typing` to each
affected room, leaves the active-room-in-chat record untouched (it only
lapses by TTL), and re-running the disconnect does not change the resulting
state. -/
theorem disconnect_cleanup (st : RedisState) (u now : Nat) :
    getKey (handleDisconnect st (some u) now).1.presence u =
      some ⟨"offline", none, now⟩ ∧
    typingKeysOf (handleDisconnect st (some u) now).1.typing u = [] ∧
    (∀ c, (c, u) ∈ st.typing →
      (⟨.room c, "user_stopped_typing", ""⟩ : Emit) ∈ (handleDisconnect st (some u) now).2) ∧
    (handleDisconnect st (some u) now).1.activeChat = st.activeChat ∧
    (handleDisconnect (handleDisconnect st (some u) now).1 (some u) now).1 =
      (handleDisconnect st (some u) now).1 := by
  refine ⟨?_, ?_, ?_, rfl, ?_⟩
  · simp only [handleDisconnect]
    exact getKey_setKey st.presence u ⟨"offline", none, now⟩
  · simp only [handleDisconnect, typingKeysOf]
    exact filter_user_of_filter_ne st.typing u
  · intro c hc
    have hmem : (c, u) ∈ typingKeysOf st.typing u := by
      simp [typingKeysOf, hc]
    have hmap : (⟨.room c, "user_stopped_typing", ""⟩ : Emit) ∈
        (typingKeysOf st.typing u).map
          (fun p => (⟨.room p.1, "user_stopped_typing", ""⟩ : Emit)) :=
      List.mem_map.mpr ⟨(c, u), hmem, rfl⟩
    simp only [handleDisconnect]
    exact List.mem_append_left _ (List.mem_cons_of_mem _ hmap)
  · simp only [handleDisconnect]
    rw [setKey_setKey, filter_ne_user_idem]

/-- Witness for C4: concrete disconnect of user 7 with one typing marker in
chat 9 and an active-chat record. -/
theorem disconnect_cleanup_witness :
    getKey (handleDisconnect ⟨[], [(9, 7)], [(7, 3)]⟩ (some 7) 100).1.presence 7 =
      some ⟨"offline", none, 100⟩ ∧
    (⟨.room 9, "user_stopped_typing", ""⟩ : Emit) ∈
      (handleDisconnect ⟨[], [(9, 7)], [(7, 3)]⟩ (some 7) 100).2 := by
  exact ⟨(disconnect_cleanup ⟨[], [(9, 7)], [(7, 3)]⟩ 7 100).1,
    (disconnect_cleanup ⟨[], [(9, 7)], [(7, 3)]⟩ 7 100).2.2.1 9 (by decide)⟩

/-! ### C6 — typing-start refresh re-announces -/

/-- C6 counterexample: after a `typing_start` from user 7 in chat 9 the
marker is stored, and a second `typing_start` while the marker is still
present emits `user_typing` to the room again — the refresh is announced,
contradicting the claim that no second `user_typing` is emitted. -/
theorem typingStart_reannounce_counterexample :
    ((handleTypingStart ⟨[], [], []⟩ [] 7 (some 9) 0).1.typing.contains (9, 7) = true) ∧
    (((handleTypingStart (handleTypingStart ⟨[], [], []⟩ [] 7 (some 9) 0).1
        (handleTypingStart ⟨[], [], []⟩ [] 7 (some 9) 0).2.1 7 (some 9) 1000).2.2.filter
          (fun e => e.name == "user_typing")).length = 1) := by
  constructor
  · rfl
  · rfl

/-- C6 (amended): every `typing_start` carrying a chat id re-writes the
typing marker (refreshing its stored value), announces `user_typing` to the
room exactly once — also when the marker already existed — and appends a
fresh auto-stop timeout without cancelling the previously scheduled one. -/
theorem typingStart_always_announces (st : RedisState) (timers : List TimerTask)
    (u c now : Nat) :
    ((handleTypingStart st timers u (some c) now).2.2.filter
        (fun e => e.name == "user_typing")).length = 1 ∧
    (handleTypingStart st timers u (some c) now).1.typing.contains (c, u) = true ∧
    (handleTypingStart st timers u (some c) now).2.1 =
      timers ++ [⟨now + getTypingTimeout, c, u⟩] := by
  refine ⟨rfl, ?_, rfl⟩
  simp only [handleTypingStart]
  unfold setTypingKey
  split
  · rename_i h
    exact h
  · simp

/-! ### C7 — presence announcements are per connection, not per transition -/

/-- C7 counterexample: after user 7 connects (and is recorded online), a
second connection by the same user broadcasts `user_online` again — the
announcement is not gated on an offline-to-online transition. -/
theorem userOnline_rebroadcast_counterexample :
    ((getKey (handleConnection ⟨[], [], []⟩ (some 7) 1 100 []).1.presence 7).map
        (fun r => r.status) = some "online") ∧
    ((⟨.broadcast, "user_online", ""⟩ : Emit) ∈
      (handleConnection (handleConnection ⟨[], [], []⟩ (some 7) 1 100 []).1
        (some 7) 2 200 []).2.2) := by
  constructor
  · rfl
  · simp [handleConnection]

/-- C7 (amended): the gateway broadcasts `user_online` on every authenticated
connection and `user_offline` on every disconnect, unconditionally on the
stored presence state — announcements are per connection event, not per
status transition. -/
theorem presence_announced_per_connection (st : RedisState) (u socketId now : Nat)
    (rooms : List String) :
    ((handleConnection st (some u) socketId now rooms).2.2.count
        ⟨.broadcast, "user_online", ""⟩ = 1) ∧
    getKey (handleConnection st (some u) socketId now rooms).1.presence u =
      some ⟨"online", some socketId, now⟩ ∧
    (⟨.broadcast, "user_offline", ""⟩ : Emit) ∈ (handleDisconnect st (some u) now).2 := by
  refine ⟨rfl, ?_, ?_⟩
  · simp only [handleConnection]
    exact getKey_setKey st.presence u ⟨"online", some socketId, now⟩
  · simp [handleDisconnect]

/-! ### C8 — zero-effect mark-read announcements -/

/-- C8 counterexample: a REST `markMessagesRead` call whose only message is
already read by the caller reports `updated_count = 0` and still publishes
and emits `messages_read` — the zero-effect suppression holds only in the
socket handler, not on the REST entry point. -/
theorem restMarkRead_zero_effect_announced :
    (restMarkMessagesRead [⟨1, 9, 5, [7], false⟩] 9 [1] 7 true).2.1 = 0 ∧
    (⟨.pubsubChat, "messages_read", ""⟩ : Emit) ∈
      (restMarkMessagesRead [⟨1, 9, 5, [7], false⟩] 9 [1] 7 true).2.2 ∧
    (⟨.room 9, "messages_read", ""⟩ : Emit) ∈
      (restMarkMessagesRead [⟨1, 9, 5, [7], false⟩] 9 [1] 7 true).2.2 := by
  refine ⟨rfl, ?_, ?_⟩
  · simp [restMarkMessagesRead]
  · simp [restMarkMessagesRead]

/-- C8 (amended): the socket `mark_messages_read` handler announces
`messages_read` exactly when the newly-acknowledged count is positive,
while the REST `markMessagesRead` endpoint publishes `messages_read`
on every call, a zero-effect call included. -/
theorem messagesRead_announcement_gating :
    (∀ (store : List Message) (chatId : Nat) (ids : List Nat) (u now : Nat),
      ((handleMarkReadSocket store chatId ids u now).2.2 ≠ [] ↔
        0 < (handleMarkRead store chatId ids u now).2)) ∧
    (∀ (store : List RMessage) (chatId : Nat) (ids : List Nat) (u : Nat) (ioPresent : Bool),
      (⟨.pubsubChat, "messages_read", ""⟩ : Emit) ∈
        (restMarkMessagesRead store chatId ids u ioPresent).2.2) := by
  constructor
  · intro store chatId ids u now
    simp only [handleMarkReadSocket]
    split
    · rename_i h
      simpa using h
    · rename_i h
      simpa using h
  · intro store chatId ids u ioPresent
    simp [restMarkMessagesRead]

/-! ### C3, C9 — mark-read: store lemmas -/

theorem findMsg_cons (m : Message) (rest : List Message) (mid : Nat) :
    findMsg (m :: rest) mid = if m.id == mid then some m else findMsg rest mid := by
  by_cases h : (m.id == mid) = true
  · rw [if_pos h]
    exact List.find?_cons_of_pos _ h
  · rw [if_neg h]
    exact List.find?_cons_of_neg _ h

theorem findMsg_id {store : List Message} {mid : Nat} {m : Message}
    (h : findMsg store mid = some m) : m.id = mid := by
  have h' : List.find? (fun x => x.id == mid) store = some m := h
  have h2 := List.find?_some h'
  simpa using h2

theorem hasRead_applyRead (m : Message) (u now : Nat) :
    hasRead (applyRead m u now) u = true := by
  simp [hasRead, applyRead]

theorem applyRead_preserves_id (m : Message) (u now : Nat) :
    (applyRead m u now).id = m.id := rfl

theorem isUnreadCandidate_applyRead (m : Message) (chatId u now : Nat) :
    isUnreadCandidate (applyRead m u now) chatId u = false := by
  simp [isUnreadCandidate, hasRead_applyRead]

theorem saveMsg_map_id (s : List Message) (m' : Message) :
    (saveMsg s m').map (fun x => x.id) = s.map (fun x => x.id) := by
  induction s with
  | nil => rfl
  | cons m rest ih =>
    simp only [saveMsg]
    split
    · rename_i h
      have hm : m.id = m'.id := by simpa using h
      simp [hm]
    · simp [ih]

theorem findMsg_saveMsg_ne (s : List Message) (m' : Message) (mid : Nat)
    (h : m'.id ≠ mid) : findMsg (saveMsg s m') mid = findMsg s mid := by
  induction s with
  | nil => rfl
  | cons m rest ih =>
    simp only [saveMsg]
    split
    · rename_i hm
      have hmm : m.id = m'.id := by simpa using hm
      rw [findMsg_cons, findMsg_cons]
      have h1 : (m'.id == mid) = false := by simpa using h
      have h2 : (m.id == mid) = false := by rw [hmm]; exact h1
      simp [h1, h2]
    · rw [findMsg_cons, findMsg_cons, ih]

theorem findMsg_saveMsg_self (s : List Message) (m m' : Message) (mid : Nat)
    (hf : findMsg s mid = some m) (hid : m'.id = m.id) :
    findMsg (saveMsg s m') mid = some m' := by
  induction s with
  | nil => simp [findMsg] at hf
  | cons a rest ih =>
    rw [findMsg_cons] at hf
    simp only [saveMsg]
    by_cases ha : (a.id == mid) = true
    · rw [if_pos ha] at hf
      have ham : a = m := Option.some.inj hf
      have hidm : (a.id == m'.id) = true := by
        rw [hid, ← ham]
        simp
      rw [if_pos hidm, findMsg_cons]
      have hmid2 : (m'.id == mid) = true := by
        rw [hid, ← ham]
        exact ha
      rw [if_pos hmid2]
    · rw [if_neg ha] at hf
      have hmid : m.id = mid := findMsg_id hf
      have hcond : ¬((a.id == m'.id) = true) := by
        rw [hid, hmid]
        exact ha
      rw [if_neg hcond, findMsg_cons, if_neg ha]
      exact ih hf

theorem saveMsg_of_find_none (s : List Message) (m' : Message)
    (h : findMsg s m'.id = none) : saveMsg s m' = s := by
  induction s with
  | nil => rfl
  | cons a rest ih =>
    rw [findMsg_cons] at h
    by_cases ha : (a.id == m'.id) = true
    · rw [if_pos ha] at h
      cases h
    · rw [if_neg ha] at h
      simp only [saveMsg, if_neg ha, ih h]

/-! ### C3 — idempotence lemmas for the explicit-ids branch -/

theorem markOne_noop (s : List Message) (mid u now : Nat)
    (h : allReadAt s mid u) : markOne s mid u now = (s, 0) := by
  unfold markOne
  cases hf : findMsg s mid with
  | none => rfl
  | some m => simp [h m hf]

theorem markOne_establishes (s : List Message) (mid u now : Nat) :
    allReadAt (markOne s mid u now).1 mid u := by
  unfold markOne
  cases hf : findMsg s mid with
  | none =>
    intro m hm
    rw [hf] at hm
    cases hm
  | some m0 =>
    by_cases hr : hasRead m0 u = true
    · simp only [if_pos hr]
      intro m hm
      rw [hf] at hm
      obtain rfl : m0 = m := Option.some.inj hm
      exact hr
    · simp only [if_neg hr]
      intro m hm
      rw [findMsg_saveMsg_self s m0 (applyRead m0 u now) mid hf
        (applyRead_preserves_id m0 u now)] at hm
      obtain rfl : applyRead m0 u now = m := Option.some.inj hm
      exact hasRead_applyRead m0 u now

theorem markOne_preserves (s : List Message) (mid mid' u now : Nat)
    (h : allReadAt s mid u) : allReadAt (markOne s mid' u now).1 mid u := by
  by_cases heq : mid' = mid
  · subst heq
    exact markOne_establishes s mid' u now
  · unfold markOne
    cases hf : findMsg s mid' with
    | none => exact h
    | some m0 =>
      by_cases hr : hasRead m0 u = true
      · simp only [if_pos hr]
        exact h
      · simp only [if_neg hr]
        intro m hm
        have hne : (applyRead m0 u now).id ≠ mid := by
          rw [applyRead_preserves_id, findMsg_id hf]
          exact heq
        rw [findMsg_saveMsg_ne s (applyRead m0 u now) mid hne] at hm
        exact h m hm

theorem markMessageIds_preserves (ids : List Nat) (s : List Message) (mid u now : Nat)
    (h : allReadAt s mid u) : allReadAt (markMessageIds s ids u now).1 mid u := by
  induction ids generalizing s with
  | nil => exact h
  | cons mid0 rest ih =>
    simp only [markMessageIds]
    exact ih (markOne s mid0 u now).1 (markOne_preserves s mid mid0 u now h)

theorem markMessageIds_establishes (ids : List Nat) (s : List Message) (u now : Nat) :
    ∀ mid ∈ ids, allReadAt (markMessageIds s ids u now).1 mid u := by
  induction ids generalizing s with
  | nil =>
    intro mid hmid
    cases hmid
  | cons mid0 rest ih =>
    intro mid hmid
    simp only [markMessageIds]
    rcases List.mem_cons.mp hmid with rfl | hmid'
    · exact markMessageIds_preserves rest (markOne s mid u now).1 mid u now
        (markOne_establishes s mid u now)
    · exact ih (markOne s mid0 u now).1 mid hmid'

theorem markMessageIds_noop (ids : List Nat) (s : List Message) (u now : Nat)
    (h : ∀ mid ∈ ids, allReadAt s mid u) : markMessageIds s ids u now = (s, 0) := by
  induction ids with
  | nil => rfl
  | cons mid0 rest ih =>
    simp only [markMessageIds]
    rw [markOne_noop s mid0 u now (h mid0 (List.mem_cons_self mid0 rest))]
    rw [ih (fun mid hmid => h mid (List.mem_cons_of_mem mid0 hmid))]
    rfl

/-! ### C9 — the mark-all-unread loop acts exactly on the candidate set -/

theorem foldl_save_pair (l : List Message) (u now : Nat) :
    ∀ (s : List Message) (k : Nat),
      l.foldl (fun (acc : List Message × Nat) m =>
          (saveMsg acc.1 (applyRead m u now), acc.2 + 1)) (s, k) =
        (foldSave s l u now, k + l.length) := by
  induction l with
  | nil =>
    intro s k
    simp [foldSave]
  | cons m rest ih =>
    intro s k
    simp only [List.foldl_cons]
    rw [ih]
    simp only [foldSave, List.foldl_cons, List.length_cons]
    refine Prod.ext rfl ?_
    simp
    omega

theorem markAllUnread_eq (store : List Message) (chatId u now : Nat) :
    markAllUnread store chatId u now =
      (foldSave store (store.filter (fun m => isUnreadCandidate m chatId u)) u now,
       (store.filter (fun m => isUnreadCandidate m chatId u)).length) := by
  simp only [markAllUnread]
  rw [foldl_save_pair (store.filter (fun m => isUnreadCandidate m chatId u)) u now store 0]
  simp

theorem findMsg_of_mem_nodup (store : List Message) (m : Message)
    (hs : (store.map (fun x => x.id)).Nodup) (hm : m ∈ store) :
    findMsg store m.id = some m := by
  induction store with
  | nil => cases hm
  | cons a rest ih =>
    simp only [List.map_cons, List.nodup_cons] at hs
    rw [findMsg_cons]
    rcases List.mem_cons.mp hm with rfl | hm'
    · simp
    · have hane : ¬((a.id == m.id) = true) := by
        simp only [beq_iff_eq]
        intro hEq
        exact hs.1 (hEq ▸ List.mem_map_of_mem _ hm')
      rw [if_neg hane]
      exact ih hs.2 hm'

theorem saveMsg_eq_map_applyRead (s : List Message) (m : Message) (u now : Nat)
    (hs : (s.map (fun x => x.id)).Nodup) (hf : findMsg s m.id = some m) :
    saveMsg s (applyRead m u now) =
      s.map (fun x => if x.id == m.id then applyRead x u now else x) := by
  induction s with
  | nil => simp [findMsg] at hf
  | cons a rest ih =>
    simp only [List.map_cons, List.nodup_cons] at hs
    rw [findMsg_cons] at hf
    by_cases ha : (a.id == m.id) = true
    · rw [if_pos ha] at hf
      obtain rfl : a = m := Option.some.inj hf
      simp only [saveMsg]
      have hcond : (a.id == (applyRead a u now).id) = true := by
        rw [applyRead_preserves_id]
        simp
      rw [if_pos hcond]
      simp only [List.map_cons]
      have hfm : (a.id == a.id) = true := by simp
      rw [if_pos hfm]
      have hrest : ∀ x ∈ rest, (if (x.id == a.id) = true then applyRead x u now else x) = x := by
        intro x hx
        have hne : ¬((x.id == a.id) = true) := by
          simp only [beq_iff_eq]
          intro hEq
          exact hs.1 (hEq ▸ List.mem_map_of_mem _ hx)
        rw [if_neg hne]
      rw [List.map_congr_left hrest]
      simp
    · rw [if_neg ha] at hf
      simp only [saveMsg]
      have hcond : ¬((a.id == (applyRead m u now).id) = true) := by
        rw [applyRead_preserves_id]
        exact ha
      rw [if_neg hcond]
      simp only [List.map_cons]
      rw [if_neg ha]
      rw [ih hs.2 hf]

theorem foldSave_eq_map (u now : Nat) (l : List Message) :
    ∀ (s : List Message),
      (s.map (fun x => x.id)).Nodup →
      (l.map (fun x => x.id)).Nodup →
      (∀ m ∈ l, findMsg s m.id = some m) →
      foldSave s l u now =
        s.map (fun x => if l.any (fun m => m.id == x.id) then applyRead x u now else x) := by
  induction l with
  | nil =>
    intro s _ _ _
    simp only [foldSave, List.foldl_nil, List.any_nil, Bool.false_eq_true, if_false]
    exact (List.map_id s).symm
  | cons m rest ih =>
    intro s hs hl hmem
    simp only [List.map_cons, List.nodup_cons] at hl
    have hstep : foldSave s (m :: rest) u now =
        foldSave (saveMsg s (applyRead m u now)) rest u now := rfl
    rw [hstep]
    have hfm : findMsg s m.id = some m := hmem m (List.mem_cons_self m rest)
    have hmap1 : saveMsg s (applyRead m u now) =
        s.map (fun x => if x.id == m.id then applyRead x u now else x) :=
      saveMsg_eq_map_applyRead s m u now hs hfm
    have hs1id : ((saveMsg s (applyRead m u now)).map (fun x => x.id)).Nodup := by
      rw [saveMsg_map_id]
      exact hs
    have hmem1 : ∀ m' ∈ rest, findMsg (saveMsg s (applyRead m u now)) m'.id = some m' := by
      intro m' hm'
      have hne : (applyRead m u now).id ≠ m'.id := by
        rw [applyRead_preserves_id]
        intro hEq
        exact hl.1 (hEq ▸ List.mem_map_of_mem _ hm')
      rw [findMsg_saveMsg_ne s (applyRead m u now) m'.id hne]
      exact hmem m' (List.mem_cons_of_mem _ hm')
    rw [ih (saveMsg s (applyRead m u now)) hs1id hl.2 hmem1]
    rw [hmap1, List.map_map]
    apply List.map_congr_left
    intro x _
    by_cases hxm : (x.id == m.id) = true
    · have hxid : x.id = m.id := by simpa using hxm
      have hanyfalse :
          rest.any (fun m' => m'.id == (applyRead x u now).id) = false := by
        rw [List.any_eq_false]
        intro m' hm'
        rw [applyRead_preserves_id]
        simp only [beq_iff_eq]
        intro hEq
        exact hl.1 (hxid ▸ hEq ▸ List.mem_map_of_mem _ hm')
      simp only [Function.comp_apply, if_pos hxm]
      rw [if_neg (by simp [hanyfalse])]
      have hany : ((m :: rest).any (fun m' => m'.id == x.id)) = true := by
        simp [hxid.symm]
      rw [if_pos hany]
    · simp only [Function.comp_apply, if_neg hxm]
      have hcons : ((m :: rest).any (fun m' => m'.id == x.id)) =
          rest.any (fun m' => m'.id == x.id) := by
        simp only [List.any_cons]
        have : ¬((m.id == x.id) = true) := by
          simp only [beq_iff_eq]
          intro hEq
          exact hxm (by simp [hEq])
        simp [this]
      rw [hcons]

theorem markAllUnread_spec (store : List Message) (chatId u now : Nat)
    (hs : (store.map (fun x => x.id)).Nodup) :
    markAllUnread store chatId u now =
      (store.map (fun m => if isUnreadCandidate m chatId u then applyRead m u now else m),
       (store.filter (fun m => isUnreadCandidate m chatId u)).length) := by
  rw [markAllUnread_eq]
  refine Prod.ext ?_ rfl
  rw [foldSave_eq_map u now (store.filter (fun m => isUnreadCandidate m chatId u)) store hs
    (List.Nodup.sublist ((List.filter_sublist store).map (fun x => x.id)) hs)
    (fun m hm => findMsg_of_mem_nodup store m hs (List.mem_of_mem_filter hm))]
  apply List.map_congr_left
  intro x hx
  by_cases hc : isUnreadCandidate x chatId u = true
  · have hmemf : x ∈ store.filter (fun m => isUnreadCandidate m chatId u) :=
      List.mem_filter.mpr ⟨hx, hc⟩
    have hany : ((store.filter (fun m => isUnreadCandidate m chatId u)).any
        (fun m => m.id == x.id)) = true :=
      List.any_eq_true.mpr ⟨x, hmemf, by simp⟩
    rw [if_pos hany, if_pos hc]
  · have hany : ((store.filter (fun m => isUnreadCandidate m chatId u)).any
        (fun m => m.id == x.id)) = false := by
      rw [List.any_eq_false]
      intro m' hm'
      simp only [beq_iff_eq]
      intro hEq
      have hmx : m' = x :=
        List.inj_on_of_nodup_map hs (List.mem_of_mem_filter hm') hx hEq
      have hcand : isUnreadCandidate m' chatId u = true := (List.mem_filter.mp hm').2
      rw [hmx] at hcand
      exact hc hcand
    rw [if_neg (by simp [hany]), if_neg hc]

theorem filter_cand_eq_nil (s1 : List Message) (chatId u : Nat)
    (h : ∀ m ∈ s1, ¬(isUnreadCandidate m chatId u = true)) :
    s1.filter (fun m => isUnreadCandidate m chatId u) = [] := by
  induction s1 with
  | nil => rfl
  | cons a rest ih =>
    simp only [List.filter_cons]
    rw [if_neg (h a (List.mem_cons_self a rest))]
    exact ih (fun m hm => h m (List.mem_cons_of_mem a hm))

/-- C3: a read acknowledgement is idempotent: re-running `handleMarkRead`
with the same chat and message ids for the same actor is a no-op — the
stored `readBy` entries are unchanged and the reported newly-acknowledged
count of the repeated call is `0` (the first call reported some `N`). -/
theorem markRead_idempotent (store : List Message) (chatId : Nat) (ids : List Nat)
    (u now now' : Nat) (hs : (store.map (fun x => x.id)).Nodup) :
    handleMarkRead (handleMarkRead store chatId ids u now).1 chatId ids u now' =
      ((handleMarkRead store chatId ids u now).1, 0) := by
  by_cases hlen : 0 < ids.length
  · simp only [handleMarkRead, if_pos hlen]
    exact markMessageIds_noop ids _ u now'
      (fun mid hmid => markMessageIds_establishes ids store u now mid hmid)
  · simp only [handleMarkRead, if_neg hlen]
    rw [markAllUnread_spec store chatId u now hs]
    have hollow : ∀ m ∈ store.map
        (fun m => if isUnreadCandidate m chatId u then applyRead m u now else m),
        ¬(isUnreadCandidate m chatId u = true) := by
      intro m hm
      rcases List.mem_map.mp hm with ⟨m0, _, rfl⟩
      by_cases hc : isUnreadCandidate m0 chatId u = true
      · rw [if_pos hc, isUnreadCandidate_applyRead]
        simp
      · rw [if_neg hc]
        exact hc
    rw [markAllUnread_eq, filter_cand_eq_nil _ chatId u hollow]
    simp [foldSave]

/-- Witness for C3: a one-message store, the same id marked twice; the
second call returns the unchanged store and count `0`. -/
theorem markRead_idempotent_witness :
    handleMarkRead
        (handleMarkRead [⟨1, 9, 5, [], "sent", false⟩] 9 [1] 7 100).1 9 [1] 7 200 =
      ((handleMarkRead [⟨1, 9, 5, [], "sent", false⟩] 9 [1] 7 100).1, 0) :=
  markRead_idempotent [⟨1, 9, 5, [], "sent", false⟩] 9 [1] 7 100 200 (by decide)

/-- C9: a `mark_messages_read` with an empty `messageIds` list marks read
exactly the messages of the chat that are not sent by the calling actor,
not already acknowledged by it, and not deleted — each such message gains a
receipt while every other message is untouched — and the reported count is
the size of that candidate set. -/
theorem markRead_empty_marks_candidates (store : List Message) (chatId u now : Nat)
    (hs : (store.map (fun x => x.id)).Nodup) :
    handleMarkRead store chatId [] u now =
      (store.map (fun m => if isUnreadCandidate m chatId u then applyRead m u now else m),
       (store.filter (fun m => isUnreadCandidate m chatId u)).length) := by
  have h0 : ¬(0 < ([] : List Nat).length) := by simp
  simp only [handleMarkRead, if_neg h0]
  exact markAllUnread_spec store chatId u now hs

/-- Witness for C9: a five-message store in which exactly one message is a
candidate (one is sent by the actor, one belongs to another chat, one is
already read by the actor, one is deleted). -/
theorem markRead_empty_marks_candidates_witness :
    handleMarkRead
        [⟨1, 9, 5, [], "sent", false⟩, ⟨2, 9, 7, [], "sent", false⟩,
         ⟨3, 8, 5, [], "sent", false⟩, ⟨4, 9, 5, [⟨7, 10⟩], "read", false⟩,
         ⟨5, 9, 5, [], "sent", true⟩] 9 [] 7 100 =
      (([⟨1, 9, 5, [], "sent", false⟩, ⟨2, 9, 7, [], "sent", false⟩,
         ⟨3, 8, 5, [], "sent", false⟩, ⟨4, 9, 5, [⟨7, 10⟩], "read", false⟩,
         ⟨5, 9, 5, [], "sent", true⟩] : List Message).map
          (fun m => if isUnreadCandidate m 9 7 then applyRead m 7 100 else m),
       (([⟨1, 9, 5, [], "sent", false⟩, ⟨2, 9, 7, [], "sent", false⟩,
          ⟨3, 8, 5, [], "sent", false⟩, ⟨4, 9, 5, [⟨7, 10⟩], "read", false⟩,
          ⟨5, 9, 5, [], "sent", true⟩] : List Message).filter
           (fun m => isUnreadCandidate m 9 7)).length) :=
  markRead_empty_marks_candidates
    [⟨1, 9, 5, [], "sent", false⟩, ⟨2, 9, 7, [], "sent", false⟩,
     ⟨3, 8, 5, [], "sent", false⟩, ⟨4, 9, 5, [⟨7, 10⟩], "read", false⟩,
     ⟨5, 9, 5, [], "sent", true⟩] 9 7 100 (by decide)

/-! ### C5 — typing-marker lifetime -/

theorem countStarts_append (x : Nat) (p q : List TEvent) :
    countStarts x (p ++ q) = countStarts x p + countStarts x q := by
  simp [countStarts, List.filter_append]

theorem countFires_append (x : Nat) (p q : List TEvent) :
    countFires x (p ++ q) = countFires x p + countFires x q := by
  simp [countFires, List.filter_append]

/-- The stored marker records the instant of the trailing `typing_start`:
every event kind rewrites the marker, so a visible marker means the trace
processed so far ends in `tstart` at exactly that instant. -/
theorem trun_marker_last (es : List TEvent) (s : TState) (tc : Nat)
    (h : (trunFrom s es).marker = some tc) :
    (es = [] ∧ s.marker = some tc) ∨
      ∃ p0, es = p0 ++ [TEvent.mk tc TKind.tstart] := by
  rcases List.eq_nil_or_concat es with rfl | ⟨p0, e, rfl⟩
  · exact Or.inl ⟨rfl, h⟩
  · right
    rw [List.concat_eq_append] at h ⊢
    simp only [trunFrom, List.foldl_append, List.foldl_cons, List.foldl_nil] at h
    obtain ⟨t, k⟩ := e
    cases k with
    | tstart =>
      obtain rfl : t = tc := Option.some.inj (show some t = some tc from h)
      exact ⟨p0, rfl⟩
    | tstop => exact Option.noConfusion (show (none : Option Nat) = some tc from h)
    | tsend => exact Option.noConfusion (show (none : Option Nat) = some tc from h)
    | tfire => exact Option.noConfusion (show (none : Option Nat) = some tc from h)

/-- C5: a typing marker is destroyed, with a `user_stopped_typing`
announcement, by each of the three Typing-to-Idle triggers — explicit
`typing_stop`, the actor sending a message in the room, and the 3-second
timeout firing — and in any causally well-formed complete trace a stored
marker is never older than `getTypingTimeout`: at any observation instant
`q` reached before the still-unprocessed events, `q ≤ created + 3000`. -/
theorem typingMarker_lifetime :
    (∀ (s : TState) (t : Nat),
      (tstep s ⟨t, TKind.tstop⟩).marker = none ∧
        (tstep s ⟨t, TKind.tstop⟩).stops = s.stops + 1) ∧
    (∀ (s : TState) (t : Nat),
      (tstep s ⟨t, TKind.tsend⟩).marker = none ∧
        (tstep s ⟨t, TKind.tsend⟩).stops = s.stops + 1) ∧
    (∀ (s : TState) (t : Nat),
      (tstep s ⟨t, TKind.tfire⟩).marker = none ∧
        (tstep s ⟨t, TKind.tfire⟩).stops = s.stops + 1) ∧
    (∀ (es p rest : List TEvent) (tc q : Nat),
      es = p ++ rest →
      timerComplete es →
      timerCausal es →
      (trun p).marker = some tc →
      (∀ e ∈ rest, q ≤ e.time) →
      q ≤ tc + getTypingTimeout) := by
  refine ⟨fun s t => ⟨rfl, rfl⟩, fun s t => ⟨rfl, rfl⟩, fun s t => ⟨rfl, rfl⟩, ?_⟩
  intro es p rest tc q hsplit hcomp hcaus hmark hq
  rcases trun_marker_last p tinit tc hmark with ⟨-, habs⟩ | ⟨p0, rfl⟩
  · cases habs
  subst hsplit
  set ev : TEvent := ⟨tc, TKind.tstart⟩ with hev
  set x := tc + getTypingTimeout with hx
  have hmemev : ev ∈ (p0 ++ [ev]) ++ rest := by simp
  have hxmem : x ∈ relevantTimes ((p0 ++ [ev]) ++ rest) :=
    List.mem_map_of_mem (fun e => e.time + getTypingTimeout) hmemev
  have hn : p0.length ∈ List.range (((p0 ++ [ev]) ++ rest).length + 1) := by
    simp only [List.mem_range, List.length_append, List.length_cons, List.length_nil]
    omega
  have htake : (((p0 ++ [ev]) ++ rest).take p0.length) = p0 := by
    rw [List.append_assoc]
    exact List.take_left p0 ([ev] ++ rest)
  have hcaus0 := hcaus p0.length hn x hxmem
  rw [htake] at hcaus0
  have hcompx := hcomp x hxmem
  have hs_single : countStarts x [ev] = 1 := by
    simp [countStarts, hev, hx]
  have hf_single : countFires x [ev] = 0 := by
    simp [countFires, hev]
  rw [countFires_append, countFires_append, countStarts_append, countStarts_append,
    hs_single, hf_single] at hcompx
  have hrest : 1 ≤ countFires x rest := by omega
  have hne : rest.filter (fun e => e.kind == TKind.tfire && e.time == x) ≠ [] := by
    intro hnil
    rw [countFires, hnil] at hrest
    simp at hrest
  obtain ⟨e, he⟩ := List.exists_mem_of_ne_nil _ hne
  have hmemf := List.mem_filter.mp he
  have ht : e.time = x := by
    have h2 := hmemf.2
    simp only [Bool.and_eq_true, beq_iff_eq] at h2
    exact h2.2
  have hqe := hq e hmemf.1
  omega

/-- Witness for C5: a trace of one `typing_start` at 0 whose timeout fires
at 3000; observed at instant 2500 the marker is present and within the
timeout bound. -/
theorem typingMarker_lifetime_witness :
    (trun [⟨0, TKind.tstart⟩]).marker = some 0 ∧ (2500 : Nat) ≤ 0 + getTypingTimeout :=
  ⟨by decide,
   typingMarker_lifetime.2.2.2 [⟨0, TKind.tstart⟩, ⟨3000, TKind.tfire⟩]
     [⟨0, TKind.tstart⟩] [⟨3000, TKind.tfire⟩] 0 2500 rfl
     (by unfold timerComplete; decide) (by unfold timerCausal; decide)
     (by decide) (by decide)⟩

end ChatService

